import Mathlib

/-!
A shallow embedding of the PyGamePiano repository (PianoTest.py and
build_pianov6.py), together with theorems checking the natural-language
specification against it.

The embedding follows the source line by line:

* `parse_midi` (PianoTest.py lines 245-273): walks a merged MIDI message
  stream, accumulating absolute time in seconds via `tick2second`, recording
  `(time, bpm)` tempo breakpoints, pairing note-on/note-off messages into
  `FallingNote` spans, then sorting by start time and installing the
  `(0, 120)` tempo fallback.
* the main event loop (lines 327-360): the per-frame `dt` clamp, the seek key
  handling, the reversed-scan tempo lookup, and the note trigger/release pass
  over `notes_list` with its `hit`/`playing` flags and the per-key
  `is_pressed` state.
* `normalize_audio` (build_pianov6.py lines 72-78), with numpy float
  arithmetic idealized as exact rational arithmetic and the `astype(np.int16)`
  conversion as truncation toward zero.

Machine floats are modelled by `ℚ`; Python integers by `ℕ`/`ℤ`.
-/

namespace PyGamePiano

/-- One message of the merged MIDI stream (`mido.merge_tracks`): every message
carries its delta time in ticks (`msg.time`); note messages carry pitch and
velocity, `set_tempo` carries the new tempo in microseconds per beat, and
`other` stands for any remaining meta/channel message (which only advances
time in `parse_midi`). -/
inductive MidiMsg : Type
  | set_tempo (delta : ℕ) (tempo : ℕ)
  | note_on (delta : ℕ) (note : ℕ) (velocity : ℕ)
  | note_off (delta : ℕ) (note : ℕ)
  | other (delta : ℕ)
  deriving DecidableEq, Repr

/-- The delta time in ticks of a message (`msg.time` in mido). -/
def MidiMsg.delta : MidiMsg → ℕ
  | .set_tempo d _ => d
  | .note_on d _ _ => d
  | .note_off d _ => d
  | .other d => d

/-- `mido.tick2second(tick, ticks_per_beat, tempo)`:
`scale = tempo * 1e-6 / ticks_per_beat; return tick * scale`. -/
def tick2second (tick ticks_per_beat tempo : ℕ) : ℚ :=
  (tick : ℚ) * ((tempo : ℚ) * (1 / 1000000) / (ticks_per_beat : ℚ))

/-- `mido.tempo2bpm(tempo) = 60 * 1e6 / tempo`. -/
def tempo2bpm (tempo : ℕ) : ℚ := 60000000 / (tempo : ℚ)

/-- `FallingNote.__init__` (PianoTest.py lines 190-199): static schedule data
plus the two runtime flags, both initialized to `False`. Geometry and colour
fields are irrelevant to the claims and omitted. -/
structure FallingNote where
  midi : ℕ
  start_time : ℚ
  end_time : ℚ
  velocity : ℚ
  hit : Bool
  playing : Bool
  deriving DecidableEq, Repr

/-- A freshly constructed `FallingNote(midi, start_sec, end_sec, velocity, _)`:
`hit = False`, `playing = False`. -/
def mkFallingNote (midi : ℕ) (start_sec end_sec velocity : ℚ) : FallingNote :=
  ⟨midi, start_sec, end_sec, velocity, false, false⟩

/-- Offsets within an octave that are black keys (PianoTest.py line 234). -/
def is_black_key (i : ℕ) : Bool := decide (i % 12 ∈ [1, 3, 6, 8, 10])

/-- First pass of `setup_keys` (lines 233-237): white keys for
`i in range(21, 109)`. -/
def white_key_midis : List ℕ :=
  (List.range' 21 88).filter (fun i => !is_black_key i)

/-- Second pass of `setup_keys` (lines 238-243): a black key is added only if
`key_map.get(i-1)` is already present after the white pass. -/
def black_key_midis : List ℕ :=
  (List.range' 21 88).filter (fun i => is_black_key i && decide ((i - 1) ∈ white_key_midis))

/-- The set of pitches that `setup_keys` installs in `key_map`. -/
def key_map_midis : List ℕ := white_key_midis ++ black_key_midis

/-- `note.midi in key_map` membership test used by the parser and event loop. -/
def key_map_contains (n : ℕ) : Bool := decide (n ∈ key_map_midis)

/-- The mutable state threaded through `parse_midi`'s message loop
(lines 250-270): absolute time, current tempo, the pitch-keyed `active_notes`
dict, and the two global output lists. -/
structure ParseState where
  current_time_sec : ℚ
  current_tempo : ℕ
  active_notes : ℕ → Option (ℚ × ℕ)
  notes_list : List FallingNote
  tempo_map : List (ℚ × ℚ)

/-- `parse_midi`'s initial state: `current_time_sec = 0.0`,
`current_tempo = 500000`, empty `active_notes`, empty output lists. -/
def initParseState : ParseState :=
  ⟨0, 500000, fun _ => none, [], []⟩

/-- The note-off branch (lines 264-270): pop the open entry for the pitch if
present; only if the pitch is in `key_map` is a `FallingNote` appended, its
end time being the current absolute time and its intensity `start_v / 127`. -/
def note_off_update (s : ParseState) (note : ℕ) : ParseState :=
  match s.active_notes note with
  | none => s
  | some (start_t, start_v) =>
      let s2 := { s with active_notes := fun p => if p = note then none else s.active_notes p }
      if key_map_contains note then
        { s2 with notes_list :=
            s2.notes_list ++ [mkFallingNote note start_t s.current_time_sec ((start_v : ℚ) / 127)] }
      else s2

/-- One iteration of `parse_midi`'s message loop (lines 255-270): advance time
by `tick2second(msg.time, ticks_per_beat, current_tempo)` (tempo in effect
before the message), then dispatch on the message type.  A `note_on` with
velocity 0 is handled by the note-off branch. -/
def parse_step (ticks_per_beat : ℕ) (s : ParseState) (msg : MidiMsg) : ParseState :=
  let t := s.current_time_sec + tick2second msg.delta ticks_per_beat s.current_tempo
  let s1 := { s with current_time_sec := t }
  match msg with
  | .set_tempo _ tempo =>
      { s1 with current_tempo := tempo, tempo_map := s1.tempo_map ++ [(t, tempo2bpm tempo)] }
  | .note_on _ note velocity =>
      if 0 < velocity then
        { s1 with active_notes := fun p => if p = note then some (t, velocity) else s1.active_notes p }
      else note_off_update s1 note
  | .note_off _ note => note_off_update s1 note
  | .other _ => s1

/-- The message loop of `parse_midi` over a whole stream. -/
def parse_fold (ticks_per_beat : ℕ) (msgs : List MidiMsg) : ParseState :=
  msgs.foldl (parse_step ticks_per_beat) initParseState

/-- `parse_midi` (lines 245-273): run the message loop, then
`notes_list.sort(key=lambda x: x.start_time)` (a stable sort, modelled by
stable insertion sort) and the zero-tempo-event fallback
`if not tempo_map: tempo_map.append((0, 120))`. -/
def parse_midi (ticks_per_beat : ℕ) (msgs : List MidiMsg) : ParseState :=
  let s := parse_fold ticks_per_beat msgs
  { s with
    notes_list := s.notes_list.insertionSort (fun a b => a.start_time ≤ b.start_time),
    tempo_map := if s.tempo_map = [] then [(0, 120)] else s.tempo_map }

/-! ### Absolute event times (claim C4) -/

/-- The absolute time (`current_time_sec`) that `parse_midi` assigns to each
message of the stream, starting from an arbitrary state. -/
def event_times_from (tpb : ℕ) (s : ParseState) : List MidiMsg → List ℚ
  | [] => []
  | m :: rest =>
      (parse_step tpb s m).current_time_sec ::
        event_times_from tpb (parse_step tpb s m) rest

/-- The absolute time `parse_midi` assigns to each message of the stream. -/
def event_times (tpb : ℕ) (msgs : List MidiMsg) : List ℚ :=
  event_times_from tpb initParseState msgs

/-- Following the spec's words (§4.1):
`convert_ticks(delta_ticks, ticks_per_beat, active_tempo) → seconds`,
`seconds = delta_ticks * active_tempo / (ticks_per_beat * 1_000_000)`. -/
def spec_convert_ticks (delta_ticks ticks_per_beat active_tempo : ℕ) : ℚ :=
  (delta_ticks : ℚ) * (active_tempo : ℚ) / ((ticks_per_beat : ℚ) * 1000000)

/-- Following the spec's words (§4.2): a tempo-change event updates the tempo
only after its own time is assigned; every other event leaves it unchanged. -/
def spec_next_tempo (tempo : ℕ) : MidiMsg → ℕ
  | .set_tempo _ t => t
  | _ => tempo

/-- Following the spec's words (§4.2): per event, advance `current_time` by
`convert_ticks(event.delta_ticks, ticks_per_beat, current_tempo)` with the
tempo active before the event. -/
def spec_event_times_from (tpb tempo : ℕ) (t : ℚ) : List MidiMsg → List ℚ
  | [] => []
  | m :: rest =>
      (t + spec_convert_ticks m.delta tpb tempo) ::
        spec_event_times_from tpb (spec_next_tempo tempo m)
          (t + spec_convert_ticks m.delta tpb tempo) rest

/-- The spec's accumulated event times, from tempo 500000 µs/beat and time 0. -/
def spec_event_times (tpb : ℕ) (msgs : List MidiMsg) : List ℚ :=
  spec_event_times_from tpb 500000 0 msgs

lemma tick2second_eq_spec_convert (d tpb tempo : ℕ) :
    tick2second d tpb tempo = spec_convert_ticks d tpb tempo := by
  unfold tick2second spec_convert_ticks
  simp only [div_eq_mul_inv, mul_inv, one_mul, one_div]
  ring

lemma note_off_update_current_time (s : ParseState) (n : ℕ) :
    (note_off_update s n).current_time_sec = s.current_time_sec := by
  rcases h : s.active_notes n with _ | ⟨a, b⟩ <;> simp only [note_off_update, h] <;>
    first | rfl | (split <;> rfl)

lemma note_off_update_current_tempo (s : ParseState) (n : ℕ) :
    (note_off_update s n).current_tempo = s.current_tempo := by
  rcases h : s.active_notes n with _ | ⟨a, b⟩ <;> simp only [note_off_update, h] <;>
    first | rfl | (split <;> rfl)

lemma note_off_update_tempo_map (s : ParseState) (n : ℕ) :
    (note_off_update s n).tempo_map = s.tempo_map := by
  rcases h : s.active_notes n with _ | ⟨a, b⟩ <;> simp only [note_off_update, h] <;>
    first | rfl | (split <;> rfl)

lemma parse_step_current_time (tpb : ℕ) (s : ParseState) (m : MidiMsg) :
    (parse_step tpb s m).current_time_sec =
      s.current_time_sec + tick2second m.delta tpb s.current_tempo := by
  cases m <;> simp only [parse_step] <;>
    first
      | rfl
      | (split <;> simp [note_off_update_current_time])
      | simp [note_off_update_current_time]

lemma parse_step_current_tempo (tpb : ℕ) (s : ParseState) (m : MidiMsg) :
    (parse_step tpb s m).current_tempo = spec_next_tempo s.current_tempo m := by
  cases m <;> simp only [parse_step, spec_next_tempo] <;>
    first
      | rfl
      | (split <;> simp [note_off_update_current_tempo])
      | simp [note_off_update_current_tempo]

lemma event_times_from_eq_spec (msgs : List MidiMsg) : ∀ (tpb : ℕ) (s : ParseState),
    event_times_from tpb s msgs =
      spec_event_times_from tpb s.current_tempo s.current_time_sec msgs := by
  induction msgs with
  | nil => intro tpb s; rfl
  | cons m rest ih =>
      intro tpb s
      simp only [event_times_from, spec_event_times_from]
      rw [ih, parse_step_current_time, parse_step_current_tempo,
        tick2second_eq_spec_convert]

/-- Claim C4: the Timeline Builder assigns each event of the merged stream the
absolute time obtained by accumulating `delta_ticks * active_tempo /
(ticks_per_beat * 1_000_000)` seconds per event, where the tempo used is the
tempo in effect before that event (so a tempo-change event is itself timed
under the prior tempo); moreover the conversion equals the spec's
`convert_ticks` formula, is linear in the tick delta, and a zero tick delta
contributes zero seconds. -/
theorem c4_timeline_accumulates_spec_formula :
    (∀ (tpb : ℕ) (msgs : List MidiMsg), event_times tpb msgs = spec_event_times tpb msgs) ∧
    (∀ d tpb tempo : ℕ, tick2second d tpb tempo = spec_convert_ticks d tpb tempo) ∧
    (∀ d1 d2 tpb tempo : ℕ,
      spec_convert_ticks (d1 + d2) tpb tempo =
        spec_convert_ticks d1 tpb tempo + spec_convert_ticks d2 tpb tempo) ∧
    (∀ tpb tempo : ℕ, spec_convert_ticks 0 tpb tempo = 0) := by
  refine ⟨fun tpb msgs => ?_, tick2second_eq_spec_convert, fun d1 d2 tpb tempo => ?_,
    fun tpb tempo => ?_⟩
  · exact event_times_from_eq_spec msgs tpb initParseState
  · unfold spec_convert_ticks
    push_cast
    ring
  · simp [spec_convert_ticks]

/-! ### Build-time invariants of the Note Event Set (claims C6, C7) -/

lemma tick2second_nonneg (d tpb tempo : ℕ) : 0 ≤ tick2second d tpb tempo := by
  unfold tick2second
  positivity

set_option maxRecDepth 4000 in
lemma key_map_contains_of_mem_Icc :
    ∀ m ∈ Finset.Icc (21 : ℕ) 108, key_map_contains m = true := by decide

lemma key_map_contains_iff (n : ℕ) : key_map_contains n = true ↔ 21 ≤ n ∧ n ≤ 108 := by
  constructor
  · intro h
    have hmem : n ∈ key_map_midis := of_decide_eq_true h
    have hrange : n ∈ List.range' 21 88 := by
      rcases List.mem_append.mp hmem with h' | h' <;>
        exact (List.mem_filter.mp h').1
    have := List.mem_range'_1.mp hrange
    omega
  · intro h
    exact key_map_contains_of_mem_Icc n (Finset.mem_Icc.mpr h)

/-- The invariant maintained by `parse_midi`'s message loop: every emitted
note has `start_time ≤ end_time` and a pitch that passed the `key_map` test,
and every open entry in `active_notes` started no later than the current
absolute time. -/
def ParseInv (s : ParseState) : Prop :=
  (∀ e ∈ s.notes_list, e.start_time ≤ e.end_time ∧ key_map_contains e.midi = true) ∧
    (∀ p q v, s.active_notes p = some (q, v) → q ≤ s.current_time_sec)

lemma parse_inv_init : ParseInv initParseState := by
  constructor
  · intro e he
    simp [initParseState] at he
  · intro p q v hp
    simp [initParseState] at hp

lemma note_off_update_inv (s : ParseState) (n : ℕ) (h : ParseInv s) :
    ParseInv (note_off_update s n) := by
  obtain ⟨hn, ha⟩ := h
  unfold note_off_update
  rcases hact : s.active_notes n with _ | ⟨q, v⟩
  · exact ⟨hn, ha⟩
  · dsimp only
    have hactive : ∀ p q' v',
        (if p = n then none else s.active_notes p) = some (q', v') →
          q' ≤ s.current_time_sec := by
      intro p q' v' hp
      by_cases hpn : p = n
      · simp [hpn] at hp
      · rw [if_neg hpn] at hp
        exact ha p q' v' hp
    split
    case isTrue hk =>
      refine ⟨?_, hactive⟩
      intro e he
      rcases List.mem_append.mp he with he' | he'
      · exact hn e he'
      · have : e = mkFallingNote n q s.current_time_sec ((v : ℚ) / 127) := by
          simpa using he'
        subst this
        exact ⟨ha n q v hact, hk⟩
    case isFalse hk =>
      exact ⟨hn, hactive⟩

lemma parse_step_inv (tpb : ℕ) (s : ParseState) (m : MidiMsg) (h : ParseInv s) :
    ParseInv (parse_step tpb s m) := by
  obtain ⟨hn, ha⟩ := h
  have hts : s.current_time_sec ≤
      s.current_time_sec + tick2second m.delta tpb s.current_tempo := by
    have := tick2second_nonneg m.delta tpb s.current_tempo
    linarith
  have h1 : ParseInv { s with current_time_sec :=
      s.current_time_sec + tick2second m.delta tpb s.current_tempo } :=
    ⟨hn, fun p q v hp => le_trans (ha p q v hp) hts⟩
  cases m with
  | set_tempo d tempo => exact ⟨h1.1, h1.2⟩
  | note_on d note v =>
      simp only [parse_step]
      split
      case isTrue hv =>
        refine ⟨h1.1, ?_⟩
        intro p q v' hp
        dsimp at hp
        by_cases hpn : p = note
        · rw [if_pos hpn] at hp
          injection hp with hp'
          have hq : s.current_time_sec +
              tick2second (MidiMsg.note_on d note v).delta tpb s.current_tempo = q :=
            congrArg Prod.fst hp'
          simp [← hq]
        · rw [if_neg hpn] at hp
          exact h1.2 p q v' hp
      case isFalse hv => exact note_off_update_inv _ _ h1
  | note_off d note => exact note_off_update_inv _ _ h1
  | other d => exact h1

lemma parse_fold_inv (tpb : ℕ) (msgs : List MidiMsg) : ParseInv (parse_fold tpb msgs) := by
  have h : ∀ (l : List MidiMsg) (s : ParseState), ParseInv s →
      ParseInv (l.foldl (parse_step tpb) s) := by
    intro l
    induction l with
    | nil => intro s hs; exact hs
    | cons m rest ih => intro s hs; exact ih _ (parse_step_inv tpb s m hs)
  exact h msgs _ parse_inv_init

lemma mem_parse_midi_notes (tpb : ℕ) (msgs : List MidiMsg) (e : FallingNote) :
    e ∈ (parse_midi tpb msgs).notes_list ↔ e ∈ (parse_fold tpb msgs).notes_list := by
  simp [parse_midi, List.mem_insertionSort]

lemma key_map_contains_60 : key_map_contains 60 = true := by decide

lemma key_map_contains_72 : key_map_contains 72 = true := by decide

lemma key_map_contains_110 : key_map_contains 110 = false := by decide

/-- Claim C6 (amended): every NoteEvent in the built Note Event Set satisfies
`start_time ≤ end_time` (absolute time never decreases along the stream, so a
note's end is never earlier than its start); a paired note-on/note-off at the
same absolute time yields a zero-duration event that is retained — the build
performs no validation drop of non-positive durations. -/
theorem c6_built_notes_start_le_end (tpb : ℕ) (msgs : List MidiMsg) :
    ∀ e ∈ (parse_midi tpb msgs).notes_list, e.start_time ≤ e.end_time := by
  intro e he
  exact ((parse_fold_inv tpb msgs).1 e ((mem_parse_midi_notes tpb msgs e).mp he)).1

/-- Claim C6 counterexample: a note-off arriving zero ticks after its note-on
produces the zero-duration event `(60, 0, 0)`, and that event is kept in the
built `notes_list` — it is not dropped as the claim states, and it violates
the claimed strict invariant `start < end`. -/
theorem c6_zero_duration_note_retained :
    mkFallingNote 60 0 0 (80 / 127) ∈
        (parse_midi 480 [.note_on 0 60 80, .note_off 0 60]).notes_list ∧
      ¬ (mkFallingNote 60 0 0 (80 / 127)).start_time <
          (mkFallingNote 60 0 0 (80 / 127)).end_time := by
  constructor
  · norm_num [parse_midi, parse_fold, parse_step, note_off_update, initParseState,
      tick2second, mkFallingNote, MidiMsg.delta, key_map_contains_60,
      List.insertionSort, List.orderedInsert]
  · simp [mkFallingNote]

/-- Witness for C6: the stream `note_on(60)@0, note_off(60)@480ticks` under the
default tempo yields the single note `(60, 0, 1/2)`, and the theorem applies
to it. -/
theorem c6_built_notes_start_le_end_witness :
    mkFallingNote 60 0 (1 / 2) (100 / 127) ∈
        (parse_midi 480 [.note_on 0 60 100, .note_off 480 60]).notes_list ∧
      (mkFallingNote 60 0 (1 / 2) (100 / 127)).start_time ≤
        (mkFallingNote 60 0 (1 / 2) (100 / 127)).end_time := by
  have hmem : mkFallingNote 60 0 (1 / 2) (100 / 127) ∈
      (parse_midi 480 [.note_on 0 60 100, .note_off 480 60]).notes_list := by
    norm_num [parse_midi, parse_fold, parse_step, note_off_update, initParseState,
      tick2second, mkFallingNote, MidiMsg.delta, key_map_contains_60,
      List.insertionSort, List.orderedInsert]
  exact ⟨hmem, c6_built_notes_start_le_end 480 _ _ hmem⟩

/-- Claim C7 (amended): paired note events whose pitch lies outside 21–108 are
dropped at build time — the `key_map` membership test guards the emission, so
every event of the built Note Event Set has a pitch inside 21–108 and the
runtime never encounters an out-of-range pitch (`key_map` holds exactly the
pitches 21–108). -/
theorem c7_out_of_range_pitches_never_emitted :
    (∀ (tpb : ℕ) (msgs : List MidiMsg), ∀ e ∈ (parse_midi tpb msgs).notes_list,
        key_map_contains e.midi = true ∧ 21 ≤ e.midi ∧ e.midi ≤ 108) ∧
      (∀ n, key_map_contains n = true ↔ 21 ≤ n ∧ n ≤ 108) := by
  refine ⟨fun tpb msgs e he => ?_, key_map_contains_iff⟩
  have hk := ((parse_fold_inv tpb msgs).1 e ((mem_parse_midi_notes tpb msgs e).mp he)).2
  exact ⟨hk, (key_map_contains_iff e.midi).mp hk⟩

/-- Claim C7 counterexample: a paired note-on/note-off on pitch 110 (outside
21–108) produces an empty Note Event Set — the event is dropped at build time,
not retained as the claim states. -/
theorem c7_out_of_range_note_dropped :
    (parse_midi 480 [.note_on 0 110 80, .note_off 480 110]).notes_list = [] ∧
      key_map_contains 110 = false := by
  constructor
  · norm_num [parse_midi, parse_fold, parse_step, note_off_update, initParseState,
      tick2second, mkFallingNote, MidiMsg.delta, key_map_contains_110,
      List.insertionSort, List.orderedInsert]
  · exact key_map_contains_110

/-- Witness for C7: the note `(72, 0, 1)` built from a concrete stream is in
range, as the theorem requires. -/
theorem c7_out_of_range_pitches_never_emitted_witness :
    mkFallingNote 72 0 1 (64 / 127) ∈
        (parse_midi 480 [.note_on 0 72 64, .note_off 960 72]).notes_list ∧
      key_map_contains (mkFallingNote 72 0 1 (64 / 127)).midi = true ∧
        21 ≤ (mkFallingNote 72 0 1 (64 / 127)).midi ∧
          (mkFallingNote 72 0 1 (64 / 127)).midi ≤ 108 := by
  have hmem : mkFallingNote 72 0 1 (64 / 127) ∈
      (parse_midi 480 [.note_on 0 72 64, .note_off 960 72]).notes_list := by
    norm_num [parse_midi, parse_fold, parse_step, note_off_update, initParseState,
      tick2second, mkFallingNote, MidiMsg.delta, key_map_contains_72,
      List.insertionSort, List.orderedInsert]
  exact ⟨hmem, c7_out_of_range_pitches_never_emitted.1 480 _ _ hmem⟩

/-! ### The tempo lookup of the event loop (claim C5) -/

/-- Whether a message is a `set_tempo` message. -/
def MidiMsg.is_set_tempo : MidiMsg → Bool
  | .set_tempo _ _ => true
  | _ => false

/-- The loop body of PianoTest.py lines 341-342, reading the already reversed
list: stop at the first breakpoint with `playback_time >= t_sec` and take its
bpm; if none matches, `current_bpm` keeps its previous value. -/
def bpm_scan (current_bpm playback_time : ℚ) : List (ℚ × ℚ) → ℚ
  | [] => current_bpm
  | p :: rest =>
      if p.1 ≤ playback_time then p.2 else bpm_scan current_bpm playback_time rest

/-- Lines 341-342: `for t_sec, t_bpm in reversed(tempo_map): if playback_time
>= t_sec: current_bpm = t_bpm; break`. -/
def current_bpm_update (current_bpm : ℚ) (tm : List (ℚ × ℚ)) (playback_time : ℚ) : ℚ :=
  bpm_scan current_bpm playback_time tm.reverse

lemma bpm_scan_append_of_none (prev t : ℚ) (l rest : List (ℚ × ℚ))
    (h : ∀ q ∈ l, ¬ q.1 ≤ t) :
    bpm_scan prev t (l ++ rest) = bpm_scan prev t rest := by
  induction l with
  | nil => rfl
  | cons p l ih =>
      rw [List.cons_append, bpm_scan, if_neg (h p (List.mem_cons_self p l))]
      exact ih fun q hq => h q (List.mem_cons_of_mem p hq)

lemma parse_step_tempo_map_of_not_set_tempo (tpb : ℕ) (s : ParseState) (m : MidiMsg)
    (h : m.is_set_tempo = false) : (parse_step tpb s m).tempo_map = s.tempo_map := by
  cases m with
  | set_tempo d tempo => simp [MidiMsg.is_set_tempo] at h
  | note_on d note v =>
      simp only [parse_step]
      split
      · rfl
      · exact note_off_update_tempo_map _ _
  | note_off d note => exact note_off_update_tempo_map _ _
  | other d => rfl

lemma parse_fold_tempo_map_nil (tpb : ℕ) (msgs : List MidiMsg)
    (h : ∀ m ∈ msgs, m.is_set_tempo = false) : (parse_fold tpb msgs).tempo_map = [] := by
  have haux : ∀ (l : List MidiMsg) (s : ParseState), (∀ m ∈ l, m.is_set_tempo = false) →
      (l.foldl (parse_step tpb) s).tempo_map = s.tempo_map := by
    intro l
    induction l with
    | nil => intro s _; rfl
    | cons m rest ih =>
        intro s hl
        rw [List.foldl_cons, ih _ fun m' hm' => hl m' (List.mem_cons_of_mem m hm'),
          parse_step_tempo_map_of_not_set_tempo tpb s m (hl m (List.mem_cons_self m rest))]
  exact haux msgs initParseState h

/-- Claim C5 (amended): the bpm lookup returns the tempo of the last
breakpoint (in list order) whose time is ≤ t; when no breakpoint qualifies it
keeps `current_bpm`'s previous value (120 at startup) rather than returning
the first breakpoint's tempo; and a stream declaring zero tempo events still
yields the valid one-breakpoint map `[(0, 120)]`, never an error. -/
theorem c5_bpm_lookup_last_qualifying (prev t : ℚ) :
    (∀ (l1 l2 : List (ℚ × ℚ)) (p : ℚ × ℚ), p.1 ≤ t → (∀ q ∈ l2, ¬ q.1 ≤ t) →
        current_bpm_update prev (l1 ++ p :: l2) t = p.2) ∧
      (∀ l : List (ℚ × ℚ), (∀ q ∈ l, ¬ q.1 ≤ t) → current_bpm_update prev l t = prev) ∧
      (∀ (tpb : ℕ) (msgs : List MidiMsg), (∀ m ∈ msgs, m.is_set_tempo = false) →
          (parse_midi tpb msgs).tempo_map = [(0, 120)]) := by
  refine ⟨fun l1 l2 p hp hl2 => ?_, fun l hl => ?_, fun tpb msgs hmsgs => ?_⟩
  · unfold current_bpm_update
    rw [List.reverse_append, List.reverse_cons, List.append_assoc,
      bpm_scan_append_of_none prev t l2.reverse _
        (fun q hq => hl2 q (List.mem_reverse.mp hq)),
      List.singleton_append, bpm_scan, if_pos hp]
  · unfold current_bpm_update
    have := bpm_scan_append_of_none prev t l.reverse []
      (fun q hq => hl q (List.mem_reverse.mp hq))
    rwa [List.append_nil] at this
  · simp [parse_midi, parse_fold_tempo_map_nil tpb msgs hmsgs]

/-- Claim C5 counterexample: with tempo breakpoints at times 1 and 2 (100 and
140 bpm), a frame at time 5/2 leaves `current_bpm = 140`; on a later frame at
time 1/2 no breakpoint qualifies and the lookup keeps 140 — not the first
breakpoint's tempo 100 that the claim requires. -/
theorem c5_no_qualifier_keeps_previous_bpm :
    current_bpm_update (current_bpm_update 120 [(1, 100), (2, 140)] (5 / 2))
        [(1, 100), (2, 140)] (1 / 2) = 140 ∧ (140 : ℚ) ≠ 100 := by
  constructor
  · norm_num [current_bpm_update, bpm_scan]
  · norm_num

/-- Witness for C5: the lookup applied at concrete inputs — a qualifying
breakpoint, a query before every breakpoint, and a stream with no tempo
events. -/
theorem c5_bpm_lookup_last_qualifying_witness :
    current_bpm_update 120 [(1, 100)] 2 = 100 ∧
      current_bpm_update 120 [(1, 100)] 0 = 120 ∧
      (parse_midi 480 [.note_on 0 60 80]).tempo_map = [(0, 120)] := by
  refine ⟨?_, ?_, ?_⟩
  · exact (c5_bpm_lookup_last_qualifying 120 2).1 [] [] (1, 100) (by norm_num)
      (by intro q hq; simp at hq)
  · exact (c5_bpm_lookup_last_qualifying 120 0).2.1 [(1, 100)]
      (by intro q hq; rw [List.mem_singleton.mp hq]; norm_num)
  · exact (c5_bpm_lookup_last_qualifying 0 0).2.2 480 _
      (by intro m hm; rw [List.mem_singleton.mp hm]; rfl)

/-! ### The per-frame note trigger/release pass (claims C1, C2, C3, C8) -/

/-- A side-effect signal emitted to the audio/render collaborators:
`press` models `key_map[note.midi].press(...)` (which also plays audio and
spawns particles), `release` models `key_map[note.midi].release()`. -/
inductive Signal : Type
  | press (midi : ℕ)
  | release (midi : ℕ)
  deriving DecidableEq, Repr

/-- The mutable runtime state read and written by the event loop's note pass:
the `FallingNote` list with its `hit`/`playing` flags, each key's
`is_pressed` flag (`Key.press` sets it, `Key.release` clears it), and the
accumulated trace of emitted signals. -/
structure LoopState where
  notes_list : List FallingNote
  is_pressed : ℕ → Bool
  signals : List Signal

/-- Lines 352-360 for a single note that passed the window tests: fire the
trigger when `not note.hit and playback_time >= note.start_time` (pressing the
key only when the pitch is in `key_map`, setting `hit` unconditionally), then
fire the release when `note.hit and not note.playing and playback_time >=
note.end_time` (the `hit` just set counts, so one frame can do both). -/
def process_note (playback_time : ℚ) (note : FallingNote) (pressed : ℕ → Bool) :
    FallingNote × ((ℕ → Bool) × List Signal) :=
  let note1 := if note.hit = false ∧ note.start_time ≤ playback_time then
      { note with hit := true } else note
  let pressed1 := if (note.hit = false ∧ note.start_time ≤ playback_time) ∧
      key_map_contains note.midi = true then
      (fun p => if p = note.midi then true else pressed p) else pressed
  let sigs1 : List Signal := if (note.hit = false ∧ note.start_time ≤ playback_time) ∧
      key_map_contains note.midi = true then [Signal.press note.midi] else []
  let note2 := if note1.hit = true ∧ note1.playing = false ∧
      note1.end_time ≤ playback_time then { note1 with playing := true } else note1
  let pressed2 := if (note1.hit = true ∧ note1.playing = false ∧
      note1.end_time ≤ playback_time) ∧ key_map_contains note.midi = true then
      (fun p => if p = note.midi then false else pressed1 p) else pressed1
  let sigs2 : List Signal := if (note1.hit = true ∧ note1.playing = false ∧
      note1.end_time ≤ playback_time) ∧ key_map_contains note.midi = true then
      [Signal.release note.midi] else []
  (note2, pressed2, sigs1 ++ sigs2)

/-- Lines 346-360: iterate the sorted `notes_list`; `break` when
`note.start_time > playback_time + 8` (the look-ahead window), `continue` when
`note.end_time < playback_time - 1` (the look-behind window), otherwise run
the trigger/release logic for the note. -/
def note_pass (playback_time : ℚ) :
    List FallingNote → (ℕ → Bool) → List FallingNote × ((ℕ → Bool) × List Signal)
  | [], pressed => ([], pressed, [])
  | note :: rest, pressed =>
      if playback_time + 8 < note.start_time then (note :: rest, pressed, [])
      else if note.end_time < playback_time - 1 then
        let r := note_pass playback_time rest pressed
        (note :: r.1, r.2.1, r.2.2)
      else
        let pr := process_note playback_time note pressed
        let r := note_pass playback_time rest pr.2.1
        (pr.1 :: r.1, r.2.1, pr.2.2 ++ r.2.2)

/-- One frame of the event loop at a given clock position: run the note pass
and append the emitted signals to the trace. -/
def frame (s : LoopState) (playback_time : ℚ) : LoopState :=
  let r := note_pass playback_time s.notes_list s.is_pressed
  ⟨r.1, r.2.1, s.signals ++ r.2.2⟩

/-- A run of the event loop over a list of clock positions (each frame's
`playback_time`; advances and seeks both just change this value). -/
def run (s : LoopState) (ts : List ℚ) : LoopState := ts.foldl frame s

/-- The program's initial runtime state: fresh notes, no key pressed,
no signals emitted. -/
def initLoopState (notes : List FallingNote) : LoopState := ⟨notes, fun _ => false, []⟩

/-- Default note used by positional lookups. -/
def dummy_note : FallingNote := mkFallingNote 0 0 0 0

/-- The `hit` flag of the note at position `i`. -/
def note_hit_at (s : LoopState) (i : ℕ) : Bool := (s.notes_list.getD i dummy_note).hit

/-- What one frame may do to a single note: static fields are untouched, `hit`
is never cleared, and `hit` can flip to `true` only when the clock has reached
the note's start and the note is inside the look-behind window. -/
def NoteStep (t : ℚ) (n n' : FallingNote) : Prop :=
  n'.midi = n.midi ∧ n'.start_time = n.start_time ∧ n'.end_time = n.end_time ∧
    (n.hit = true → n'.hit = true) ∧
    (n.hit = false → n'.hit = true → n.start_time ≤ t ∧ t - 1 ≤ n.end_time)

lemma noteStep_refl (t : ℚ) (n : FallingNote) : NoteStep t n n :=
  ⟨rfl, rfl, rfl, fun h => h, fun h0 h1 => by rw [h0] at h1; cases h1⟩

lemma process_note_static (t : ℚ) (n : FallingNote) (p : ℕ → Bool) :
    (process_note t n p).1.midi = n.midi ∧
      (process_note t n p).1.start_time = n.start_time ∧
      (process_note t n p).1.end_time = n.end_time := by
  dsimp only [process_note]
  split <;> split <;> exact ⟨rfl, rfl, rfl⟩

lemma process_note_hit_of_hit (t : ℚ) (n : FallingNote) (p : ℕ → Bool)
    (h : n.hit = true) : (process_note t n p).1.hit = true := by
  dsimp only [process_note]
  split
  case isTrue h1 => rw [h] at h1; cases h1.1
  case isFalse h1 => split <;> simpa using h

lemma process_note_hit_flip (t : ℚ) (n : FallingNote) (p : ℕ → Bool)
    (h0 : n.hit = false) (h1 : (process_note t n p).1.hit = true) :
    n.start_time ≤ t := by
  by_cases hst : n.start_time ≤ t
  · exact hst
  · exfalso
    have hc1 : ¬(n.hit = false ∧ n.start_time ≤ t) := fun hc => hst hc.2
    dsimp only [process_note] at h1
    rw [if_neg hc1] at h1
    have hc2 : ¬(n.hit = true ∧ n.playing = false ∧ n.end_time ≤ t) := by
      rw [h0]
      rintro ⟨h', _⟩
      cases h'
    rw [if_neg hc2] at h1
    rw [h0] at h1
    cases h1

lemma note_pass_steps (t : ℚ) : ∀ (ns : List FallingNote) (pressed : ℕ → Bool),
    List.Forall₂ (NoteStep t) ns (note_pass t ns pressed).1 := by
  intro ns
  induction ns with
  | nil => intro pressed; exact List.Forall₂.nil
  | cons note rest ih =>
      intro pressed
      dsimp only [note_pass]
      split
      case isTrue hbr =>
        exact List.forall₂_same.mpr fun x _ => noteStep_refl t x
      case isFalse hbr =>
        split
        case isTrue hskip =>
          exact List.Forall₂.cons (noteStep_refl t note) (ih pressed)
        case isFalse hskip =>
          refine List.Forall₂.cons ?_ (ih _)
          obtain ⟨hm, hs, he⟩ := process_note_static t note pressed
          exact ⟨hm, hs, he, process_note_hit_of_hit t note pressed,
            fun h0 h1 => ⟨process_note_hit_flip t note pressed h0 h1, not_lt.mp hskip⟩⟩

lemma frame_steps (s : LoopState) (t : ℚ) :
    List.Forall₂ (NoteStep t) s.notes_list (frame s t).notes_list :=
  note_pass_steps t s.notes_list s.is_pressed

lemma forall₂_getD {R : FallingNote → FallingNote → Prop} {l l' : List FallingNote}
    (h : List.Forall₂ R l l') (hd : R dummy_note dummy_note) (i : ℕ) :
    R (l.getD i dummy_note) (l'.getD i dummy_note) := by
  induction h generalizing i with
  | nil => simpa [List.getD] using hd
  | cons hR hl ih =>
      cases i with
      | zero => simpa using hR
      | succ j => simpa using ih j

lemma note_hit_mono_frame (s : LoopState) (t : ℚ) (i : ℕ)
    (h : note_hit_at s i = true) : note_hit_at (frame s t) i = true :=
  (forall₂_getD (frame_steps s t) (noteStep_refl t dummy_note) i).2.2.2.1 h

lemma note_hit_mono_run (s : LoopState) (ts : List ℚ) (i : ℕ)
    (h : note_hit_at s i = true) : note_hit_at (run s ts) i = true := by
  induction ts generalizing s with
  | nil => exact h
  | cons t ts ih => exact ih (frame s t) (note_hit_mono_frame s t i h)

/-- Claim C1 (code evaluation at the failing input): for the two overlapping
notes `[0,2)` and `[1,3)` on pitch 60, advancing the clock through 0, 1, 2
leaves the key *unpressed* at t=2 — while the second note is still sounding —
and one "key released" has already fired; the frame at t=3 fires a second
release.  The code keeps a boolean `is_pressed` and releases on *each* note's
end, so the claimed `active_count` behaviour (release exactly once, at the end
of the last overlapping note) does not hold. -/
theorem c1_overlap_release_fires_per_note_end :
    (run (initLoopState [mkFallingNote 60 0 2 (4 / 5), mkFallingNote 60 1 3 (4 / 5)])
        [0, 1, 2]).is_pressed 60 = false ∧
      (run (initLoopState [mkFallingNote 60 0 2 (4 / 5), mkFallingNote 60 1 3 (4 / 5)])
          [0, 1, 2]).signals = [.press 60, .press 60, .release 60] ∧
      (run (initLoopState [mkFallingNote 60 0 2 (4 / 5), mkFallingNote 60 1 3 (4 / 5)])
          [0, 1, 2, 3]).signals = [.press 60, .press 60, .release 60, .release 60] ∧
      ((1 : ℚ) ≤ 2 ∧ (2 : ℚ) < 3) := by
  refine ⟨?_, ?_, ?_, by norm_num⟩ <;>
    norm_num [run, frame, note_pass, process_note, initLoopState, mkFallingNote,
      key_map_contains_60]

/-- Claim C2 (code evaluation at the failing input): a note spanning `[0,2)`
on pitch 60 is triggered at t=0 and released at t=2; seeking backward to t=1
(inside `[0,2)`) does *not* re-fire the trigger: the `hit` flag is never
reset, so the trace still holds a single press and the key stays unpressed,
although the clock sits inside the note's span. -/
theorem c2_backward_seek_does_not_replay_trigger :
    (run (initLoopState [mkFallingNote 60 0 2 (4 / 5)]) [0, 2, 1]).signals =
        [.press 60, .release 60] ∧
      (run (initLoopState [mkFallingNote 60 0 2 (4 / 5)]) [0, 2, 1]).is_pressed 60 = false ∧
      ((0 : ℚ) ≤ 1 ∧ (1 : ℚ) < 2) := by
  refine ⟨?_, ?_, by norm_num⟩ <;>
    norm_num [run, frame, note_pass, process_note, initLoopState, mkFallingNote,
      key_map_contains_60]

/-- Claim C3 (code evaluation at the failing input): for the single note
`[1,3)` on pitch 60, the monotonic clock sequence `0, 1/2` and the seeking
sequence `2, 1/2` end at the same final time `1/2`, yet the first run leaves
the key unpressed and the second leaves it pressed — the final key state is
history-dependent, not a function of the final clock time. -/
theorem c3_scrub_final_state_differs :
    (run (initLoopState [mkFallingNote 60 1 3 (4 / 5)]) [0, 1 / 2]).is_pressed 60 = false ∧
      (run (initLoopState [mkFallingNote 60 1 3 (4 / 5)]) [2, 1 / 2]).is_pressed 60 = true := by
  constructor <;>
    norm_num [run, frame, note_pass, process_note, initLoopState, mkFallingNote,
      key_map_contains_60]

/-- Claim C8 counterexample: a frame at clock time 5 with the single note
`[0,1)` satisfies `time ≥ start`, yet the note is skipped by the look-behind
window test (`end_time < time - 1`) and its `hit` flag stays `false` — so the
hit flag is *not* set on the first frame where clock time ≥ start. -/
theorem c8_window_skip_leaves_hit_unset :
    note_hit_at (frame (initLoopState [mkFallingNote 60 0 1 (4 / 5)]) 5) 0 = false ∧
      ((0 : ℚ) ≤ 5) := by
  constructor
  · norm_num [run, frame, note_pass, process_note, initLoopState, mkFallingNote,
      note_hit_at, dummy_note, key_map_contains_60]
  · norm_num

/-- Claim C8 (amended): the trigger fires at most once per note over any run.
A note's `hit` flag can flip to `true` only in a frame whose clock time has
reached the note's start while the note is inside the look-behind window
(`end_time ≥ time - 1`; a note skipped by the window is left untriggered even
when time ≥ start), the flag is never reset, and the trigger block runs only
with `hit` unset — so once a frame flips a note's flag, no later frame of any
continuation, with any mix of advances and seeks, can trigger that note
again. -/
theorem c8_trigger_fires_at_most_once (s : LoopState) (ts1 : List ℚ) (t1 : ℚ)
    (ts2 : List ℚ) (t2 : ℚ) (i : ℕ)
    (h1 : note_hit_at (run s ts1) i = false)
    (h2 : note_hit_at (frame (run s ts1) t1) i = true) :
    ((run s ts1).notes_list.getD i dummy_note).start_time ≤ t1 ∧
      t1 - 1 ≤ ((run s ts1).notes_list.getD i dummy_note).end_time ∧
      note_hit_at (run (frame (run s ts1) t1) ts2) i = true ∧
      ¬(note_hit_at (run (frame (run s ts1) t1) ts2) i = false ∧
          note_hit_at (frame (run (frame (run s ts1) t1) ts2) t2) i = true) := by
  have hrel := forall₂_getD (frame_steps (run s ts1) t1) (noteStep_refl t1 dummy_note) i
  have hw := hrel.2.2.2.2 h1 h2
  have h3 := note_hit_mono_run (frame (run s ts1) t1) ts2 i h2
  refine ⟨hw.1, hw.2, h3, fun hcon => ?_⟩
  rw [h3] at hcon
  cases hcon.1

/-- Witness for C8: the single note `[0,1)` triggered by a frame at t=0, with
an immediately following frame at t=1/2 unable to re-trigger it. -/
theorem c8_trigger_fires_at_most_once_witness :
    ((run (initLoopState [mkFallingNote 60 0 1 (4 / 5)]) []).notes_list.getD 0
        dummy_note).start_time ≤ 0 ∧
      (0 : ℚ) - 1 ≤ ((run (initLoopState [mkFallingNote 60 0 1 (4 / 5)]) []).notes_list.getD 0
        dummy_note).end_time ∧
      note_hit_at (run (frame (run (initLoopState [mkFallingNote 60 0 1 (4 / 5)]) []) 0) []) 0 =
        true ∧
      ¬(note_hit_at (run (frame (run (initLoopState [mkFallingNote 60 0 1 (4 / 5)]) []) 0) []) 0 =
          false ∧
        note_hit_at (frame (run (frame (run (initLoopState [mkFallingNote 60 0 1 (4 / 5)]) []) 0)
          []) (1 / 2)) 0 = true) :=
  c8_trigger_fires_at_most_once (initLoopState [mkFallingNote 60 0 1 (4 / 5)]) [] 0 [] (1 / 2) 0
    (by norm_num [run, note_hit_at, initLoopState, mkFallingNote, dummy_note])
    (by norm_num [run, frame, note_pass, process_note, initLoopState, mkFallingNote,
      note_hit_at, dummy_note, key_map_contains_60])

/-! ### The per-frame clock advance and the seek keys (claim C9) -/

/-- The user events the main loop reacts to (PianoTest.py lines 333-339):
arrow keys change the rate or seek; anything else is ignored here. -/
inductive UserEvent : Type
  | key_up
  | key_down
  | key_left
  | key_right
  | unrelated
  deriving DecidableEq, Repr

/-- Lines 328-329: `dt = (clock.get_time() / 1000.0) * SCROLL_SPEED_MULT;
if dt > 0.1: dt = 0.1` — the wall-clock frame delta in milliseconds is
multiplied by the rate and then clamped to 0.1 seconds. -/
def frame_dt (wall_ms scroll_speed_mult : ℚ) : ℚ :=
  if 1 / 10 < wall_ms / 1000 * scroll_speed_mult then 1 / 10
  else wall_ms / 1000 * scroll_speed_mult

/-- Lines 336-339: `K_UP` raises the rate by 0.1, `K_DOWN` lowers it with a
0.1 floor, `K_LEFT`/`K_RIGHT` seek the clock by ∓2.0 seconds.  The state is
`(scroll_speed_mult, playback_time)`. -/
def handle_event : (ℚ × ℚ) → UserEvent → (ℚ × ℚ)
  | (sm, pt), .key_up => (sm + 1 / 10, pt)
  | (sm, pt), .key_down => (max (1 / 10) (sm - 1 / 10), pt)
  | (sm, pt), .key_left => (sm, pt - 2)
  | (sm, pt), .key_right => (sm, pt + 2)
  | st, .unrelated => st

/-- The clock part of one frame of the main loop: advance `playback_time` by
the clamped `dt`, then process this frame's key events. -/
def clock_frame (playback_time wall_ms scroll_speed_mult : ℚ)
    (events : List UserEvent) : ℚ × ℚ :=
  events.foldl handle_event (scroll_speed_mult, playback_time + frame_dt wall_ms scroll_speed_mult)

lemma clock_foldl_snd (events : List UserEvent) : ∀ st : ℚ × ℚ,
    (events.foldl handle_event st).2 =
      st.2 + 2 * (events.count UserEvent.key_right : ℚ) -
        2 * (events.count UserEvent.key_left : ℚ) := by
  induction events with
  | nil => intro st; simp
  | cons e es ih =>
      intro st
      obtain ⟨sm, pt⟩ := st
      cases e <;>
        simp only [List.foldl_cons, handle_event, List.count_cons, ih] <;>
        simp <;> ring

/-- Claim C9: on every frame the playback clock advances by at most 0.1
seconds of timeline time regardless of the rate multiplier — the wall-clock
delta is multiplied by the rate before the 0.1 clamp — and the only other
per-frame movement comes from the seek keys, ±2.0 seconds each. -/
theorem c9_frame_advance_clamped :
    (∀ wall_ms scroll_speed_mult : ℚ, frame_dt wall_ms scroll_speed_mult ≤ 1 / 10) ∧
      (∀ (playback_time wall_ms scroll_speed_mult : ℚ) (events : List UserEvent),
        (clock_frame playback_time wall_ms scroll_speed_mult events).2 =
          playback_time + frame_dt wall_ms scroll_speed_mult +
            2 * (events.count UserEvent.key_right : ℚ) -
              2 * (events.count UserEvent.key_left : ℚ)) := by
  constructor
  · intro wall_ms sm
    unfold frame_dt
    split
    · exact le_refl _
    case isFalse h => exact le_of_not_lt h
  · intro pt wall_ms sm events
    unfold clock_frame
    rw [clock_foldl_snd]

/-! ### `normalize_audio` from build_pianov6.py (claim C10) -/

/-- `TARGET_PEAK = 0.9` (build_pianov6.py line 8). -/
def TARGET_PEAK : ℚ := 9 / 10

/-- `astype(np.int16)` applied to an in-range float: truncation toward
zero. -/
def int16_of_rat (q : ℚ) : ℤ := if q < 0 then -Int.floor (-q) else Int.floor q

/-- `np.clip(x, lo, hi)`. -/
def np_clip (x lo hi : ℚ) : ℚ := max lo (min x hi)

/-- `np.max(np.abs(float_data))` over int16 samples (integral, so exact). -/
def max_abs (data : List ℤ) : ℕ := (data.map Int.natAbs).foldl max 0

/-- `normalize_audio` (build_pianov6.py lines 72-78): return the input when
the peak is 0, otherwise scale every sample by
`gain = 32767 * TARGET_PEAK / current_max`, clip to `[-32767, 32767]` and
convert back to int16.  Float arithmetic is idealized as exact rational
arithmetic; the clip is applied after all arithmetic, exactly as in the
source. -/
def normalize_audio (data : List ℤ) : List ℤ :=
  let current_max := max_abs data
  if current_max = 0 then data
  else
    let gain : ℚ := 32767 * TARGET_PEAK / (current_max : ℚ)
    data.map fun s => int16_of_rat (np_clip ((s : ℚ) * gain) (-32767) 32767)

lemma int16_of_rat_range (q : ℚ) (h1 : -32767 ≤ q) (h2 : q ≤ 32767) :
    -32767 ≤ int16_of_rat q ∧ int16_of_rat q ≤ 32767 := by
  have hcast : Int.floor ((32767 : ℚ)) = 32767 := by norm_num
  unfold int16_of_rat
  split
  case isTrue hneg =>
    have hfl : Int.floor (-q) ≤ Int.floor ((32767 : ℚ)) :=
      Int.floor_le_floor (by linarith)
    have hfl0 : 0 ≤ Int.floor (-q) := Int.floor_nonneg.mpr (by linarith)
    omega
  case isFalse hpos =>
    push_neg at hpos
    have hfl : Int.floor q ≤ Int.floor ((32767 : ℚ)) := Int.floor_le_floor h2
    have hfl0 : 0 ≤ Int.floor q := Int.floor_nonneg.mpr hpos
    omega

/-- Claim C10: for a (nonempty, as `np.max` requires) int16 sample list,
`normalize_audio` returns the input unchanged when the maximum absolute
sample is 0, and otherwise returns a list every element of which lies in
`[-32767, 32767]` — the scaled output is clipped before the int16 conversion,
so the conversion cannot overflow. -/
theorem c10_normalize_audio_in_range (data : List ℤ) (hne : data ≠ []) :
    (max_abs data = 0 → normalize_audio data = data) ∧
      (max_abs data ≠ 0 → ∀ x ∈ normalize_audio data, -32767 ≤ x ∧ x ≤ 32767) := by
  constructor
  · intro h
    simp [normalize_audio, h]
  · intro h x hx
    simp only [normalize_audio, if_neg h, List.mem_map] at hx
    obtain ⟨s, _, rfl⟩ := hx
    apply int16_of_rat_range
    · exact le_max_left _ _
    · exact max_le (by norm_num) (min_le_right _ _)

/-- Witness for C10: the all-zero buffer is returned unchanged, and a buffer
with peak 100 maps into the int16-safe range. -/
theorem c10_normalize_audio_in_range_witness :
    (([0, 0] : List ℤ) ≠ [] ∧ normalize_audio [0, 0] = [0, 0]) ∧
      (max_abs [100, -5] ≠ 0 ∧ ∀ x ∈ normalize_audio [100, -5], -32767 ≤ x ∧ x ≤ 32767) := by
  refine ⟨⟨by decide, (c10_normalize_audio_in_range [0, 0] (by decide)).1 (by decide)⟩,
    ⟨by decide, (c10_normalize_audio_in_range [100, -5] (by decide)).2 (by decide)⟩⟩

end PyGamePiano
